import Mathlib

/-!
Verification of the iris key-account-management CRM against its design
specification.  Each section shallowly embeds one piece of the TypeScript
source as executable Lean definitions and proves (or refutes) the claims
about it.  External services (the hosted auth admin API, the sign-in
endpoint, the stored RPC) are modelled as explicit oracle parameters; the
database tables are modelled as lists of rows in insertion order.
-/

namespace Iris

/-! ## Data model: `profiles` rows (fields used by the auth flows) -/

/-- A row of the `profiles` table, restricted to the fields the PIN flows
read or write: the PIN, the optional linked auth identity `user_id`, and
the display name. -/
structure Profile where
  pin : String
  user_id : Option String
  name : Option String
  deriving Repr, DecidableEq

/-- `supabase.from('profiles').select('*').eq('pin', pin).single()`:
succeeds exactly when precisely one row has the given PIN, and returns
that row; with zero or several matching rows `.single()` reports an
error, which the callers treat as "not found". -/
def singleByPin (db : List Profile) (pin : String) : Option Profile :=
  match db.filter (fun p => p.pin = pin) with
  | [p] => some p
  | _ => none

/-- The synthetic email the code derives from a PIN in both the edge
function and the client login. -/
def pinEmail (pin : String) : String :=
  "pin_" ++ pin ++ "@iris.internal"

/-! ## The `/create-pin-auth` edge function
(src/supabase/functions/create-pin-auth/index.ts)

The handler parses `{ pin }` from the body (`none` models a missing or
non-string field), validates `!pin || pin.length !== 6`, looks the PIN up
in `profiles`, and either returns the existing `user_id` or asks the auth
admin API to create a user with the synthetic email, then links the
profile row.  The admin API is modelled by `CreateUserResult`: the id it
assigns on success, or a failure. -/

/-- Outcome of `supabaseClient.auth.admin.createUser` as seen by the
handler: either the fresh identity id, or an error. -/
inductive CreateUserResult where
  | ok (id : String)
  | err
  deriving Repr, DecidableEq

/-- An authentication identity as created by the admin API: its id and
the email it is keyed by. -/
structure AuthUser where
  id : String
  email : String
  deriving Repr, DecidableEq

/-- The four response shapes of the edge function: 200 `{success,user_id}`,
400 `Invalid PIN format`, 401 `Invalid PIN`, and 500. -/
inductive PinAuthResponse where
  | success (user_id : String)
  | badRequest
  | unauthorized
  | serverError
  deriving Repr, DecidableEq

/-- Result of one request to `/create-pin-auth`: the HTTP response, the
`profiles` table afterwards, and the list of auth identities the request
created. -/
structure PinAuthOutcome where
  response : PinAuthResponse
  profiles : List Profile
  created : List AuthUser
  deriving Repr, DecidableEq

/-- The `/create-pin-auth` handler.  `pinBody` is the `pin` field of the
JSON body (`none` when absent).  JS truthiness: `!pin` holds for a
missing field and for the empty string, and the only other format check
is `pin.length !== 6` — no digit check is performed. -/
def createPinAuth (db : List Profile) (pinBody : Option String)
    (admin : CreateUserResult) : PinAuthOutcome :=
  match pinBody with
  | none => ⟨.badRequest, db, []⟩
  | some pin =>
    if pin = "" ∨ pin.length ≠ 6 then ⟨.badRequest, db, []⟩
    else
      match singleByPin db pin with
      | none => ⟨.unauthorized, db, []⟩
      | some profile =>
        match profile.user_id with
        | some uid => ⟨.success uid, db, []⟩
        | none =>
          match admin with
          | .err => ⟨.serverError, db, []⟩
          | .ok newId =>
            let db' := db.map (fun p =>
              if p.pin = pin then { p with user_id := some newId } else p)
            ⟨.success newId, db', [⟨newId, pinEmail pin⟩]⟩

/-! ## The client-side `login` flow (src/src/contexts/AuthContext.tsx)

`login(pin)` looks the PIN up with `.single()`, and
- on a lookup error or missing row returns `false`;
- when the row has a `user_id`, calls `signInWithPassword` with the
  synthetic email and the PIN as password;
- when it does not, first calls the `create_auth_user_for_pin` RPC and,
  only if that succeeded, calls `signInWithPassword`.
The two external calls are modelled by `LoginOracle`; the result records,
besides the returned boolean, whether the RPC was invoked and the
(email, password) pairs passed to `signInWithPassword`, in order. -/

/-- Outcomes of the two external calls `login` can make: whether the
`create_auth_user_for_pin` RPC returns without error, and whether
`signInWithPassword` succeeds for a given (email, password) pair. -/
structure LoginOracle where
  rpcOk : Bool
  signInOk : String → String → Bool

/-- What one call to `login` did: the boolean it returned, whether it
invoked the `create_auth_user_for_pin` RPC, and the (email, password)
pairs it passed to `signInWithPassword`. -/
structure LoginResult where
  success : Bool
  rpcCalled : Bool
  signInAttempts : List (String × String)
  deriving Repr, DecidableEq

/-- The `login` function of `AuthContext`. -/
def login (db : List Profile) (pin : String) (o : LoginOracle) : LoginResult :=
  match singleByPin db pin with
  | none => ⟨false, false, []⟩
  | some profileData =>
    match profileData.user_id with
    | some _ =>
      let email := pinEmail pin
      ⟨o.signInOk email pin, false, [(email, pin)]⟩
    | none =>
      if o.rpcOk then
        let email := pinEmail pin
        ⟨o.signInOk email pin, true, [(email, pin)]⟩
      else
        ⟨false, true, []⟩

/-! ## Project creation and listing
(src/unnamed/part_005 `CreateProjectModal.handleSubmit`,
src/src/components/ProjectsView.tsx `fetchProjects`)

`handleSubmit` rejects a form whose `name` or `account_id` is empty
(JS falsiness on strings), otherwise inserts one row built from the form:
`value` is `parseFloat(value)` when the string is non-empty and `null`
otherwise, and the optional text fields map `''` to `null`.  `parseFloat`
is kept abstract as a parameter `parse`.  The `projects` table is a list
in insertion order; `fetchProjects` orders by `created_at` descending,
i.e. returns the reverse of insertion order. -/

/-- The state of `CreateProjectModal`'s form: all fields are strings
(empty string for "not filled in"). -/
structure ProjectForm where
  name : String
  account_id : String
  status : String
  value : String
  start_date : String
  end_date : String
  description : String
  deriving Repr, DecidableEq

/-- A row of the `projects` table as built by `handleSubmit`; `α` is the
numeric type produced by `parseFloat`. -/
structure ProjectRow (α : Type) where
  name : String
  account_id : String
  status : String
  value : Option α
  start_date : Option String
  end_date : Option String
  description : Option String
  deriving Repr, DecidableEq

/-- The insert payload `projectData` that `handleSubmit` builds from the
form (`parse` stands for `parseFloat`). -/
def projectData {α : Type} (parse : String → α) (form : ProjectForm) :
    ProjectRow α :=
  { name := form.name
    account_id := form.account_id
    status := form.status
    value := if form.value = "" then none else some (parse form.value)
    start_date := if form.start_date = "" then none else some form.start_date
    end_date := if form.end_date = "" then none else some form.end_date
    description := if form.description = "" then none else some form.description }

/-- `CreateProjectModal.handleSubmit`: validation plus insert.  Returns
the `projects` table afterwards and whether an insert was performed. -/
def handleSubmit {α : Type} (parse : String → α) (db : List (ProjectRow α))
    (form : ProjectForm) : List (ProjectRow α) × Bool :=
  if form.name = "" ∨ form.account_id = "" then (db, false)
  else (db ++ [projectData parse form], true)

/-- `ProjectsView.fetchProjects`: all rows ordered by `created_at`
descending, i.e. newest (last inserted) first. -/
def fetchProjects {α : Type} (db : List (ProjectRow α)) : List (ProjectRow α) :=
  db.reverse

/-! ## Client overview aggregation
(src/unnamed/part_000 `ClientOverview.fetchClientData`)

For each account the code sums `(p.value || 0)` over its `'Closed Won'`
projects (completed) and over its projects whose status is in neither
`'Closed Won'` nor `'Closed Lost'` (pipeline), emits a `ClientData` row
with `total_value` their sum, and accumulates the overall completed and
pipeline totals across accounts; the overall total is their sum.
Monetary values are modelled as integers (`none` for a null `value`). -/

/-- A project as selected by the client-overview query: its `value`
(possibly null) and status. -/
structure CProject where
  value : Option Int
  status : String
  deriving Repr, DecidableEq

/-- An account with its joined projects, as selected by the
client-overview query. -/
structure CAccount where
  id : String
  name : String
  type : String
  status : String
  projects : List CProject
  deriving Repr, DecidableEq

/-- `(p.value || 0)`: a null value counts as 0. -/
def projValue (p : CProject) : Int :=
  p.value.getD 0

/-- `projects.reduce((sum, p) => sum + (p.value || 0), 0)`. -/
def sumValues (ps : List CProject) : Int :=
  ps.foldl (fun sum p => sum + projValue p) 0

/-- The per-account display row built by `fetchClientData`. -/
structure ClientData where
  id : String
  name : String
  type : String
  status : String
  total_projects : Nat
  completed_value : Int
  pipeline_value : Int
  total_value : Int
  deriving Repr, DecidableEq

/-- The `ClientData` row `fetchClientData` builds for one account. -/
def clientDataOf (a : CAccount) : ClientData :=
  let completedProjects := a.projects.filter (fun p => p.status = "Closed Won")
  let activeProjects := a.projects.filter
    (fun p => ¬ (p.status = "Closed Won" ∨ p.status = "Closed Lost"))
  let accountCompletedValue := sumValues completedProjects
  let accountPipelineValue := sumValues activeProjects
  { id := a.id
    name := a.name
    type := a.type
    status := a.status
    total_projects := a.projects.length
    completed_value := accountCompletedValue
    pipeline_value := accountPipelineValue
    total_value := accountCompletedValue + accountPipelineValue }

/-- The state `fetchClientData` accumulates while mapping over the
accounts: the rows built so far and the running overall totals. -/
structure ClientStats where
  clients : List ClientData
  completedValue : Int
  pipelineValue : Int
  deriving Repr, DecidableEq

/-- One iteration of `fetchClientData`'s map over the accounts: build
the account's `clientData` row and add its values to the running
`completedValue` and `pipelineValue` (`+=`). -/
def overviewStep (st : ClientStats) (a : CAccount) : ClientStats :=
  { clients := st.clients ++ [clientDataOf a]
    completedValue := st.completedValue + (clientDataOf a).completed_value
    pipelineValue := st.pipelineValue + (clientDataOf a).pipeline_value }

/-- `fetchClientData`: maps over the accounts building `clientData` while
accumulating `completedValue` and `pipelineValue` with `+=`. -/
def fetchClientData (accounts : List CAccount) : ClientStats :=
  accounts.foldl overviewStep ⟨[], 0, 0⟩

/-- The `totalValue` of `setTotalStats`: `completedValue + pipelineValue`. -/
def overviewTotalValue (accounts : List CAccount) : Int :=
  (fetchClientData accounts).completedValue + (fetchClientData accounts).pipelineValue

/-! ## Dashboard win rate
(src/unnamed/part_004 and part_003, `generateAIInsights`)

`winRate = projects.length > 0
  ? closedWon.length / (closedWon.length + closedLost.length) * 100 : 0`.
The divisor is the number of closed (won or lost) projects, which the
`projects.length > 0` guard does not make positive.  JS division by zero
of `0/0` yields `NaN`; the model returns `none` for that case. -/

/-- A project as used by `generateAIInsights`: only the status matters
for the win-rate computation. -/
structure DProject where
  status : String
  deriving Repr, DecidableEq

/-- The divisor of the win-rate fraction:
`closedWonProjects.length + closedLostProjects.length`. -/
def winRateDivisor (projects : List DProject) : Nat :=
  (projects.filter (fun p => p.status = "Closed Won")).length +
    (projects.filter (fun p => p.status = "Closed Lost")).length

/-- JS division lifted to rationals, with `none` standing for the `NaN`
produced by `0 / 0`. -/
def jsDiv (a b : ℚ) : Option ℚ :=
  if b = 0 then none else some (a / b)

/-- The `winRate` computed by `generateAIInsights`; `none` models `NaN`. -/
def winRate (projects : List DProject) : Option ℚ :=
  if projects.length > 0 then
    (jsDiv ((projects.filter (fun p => p.status = "Closed Won")).length : ℚ)
        (winRateDivisor projects : ℚ)).map (· * 100)
  else some 0

/-! ## Per-user update frequency
(src/unnamed/part_008 `UserUpdateFrequency.fetchUserFrequency`)

The reduce groups updates by `update.profiles?.name || 'Unknown User'`
into an object (insertion-ordered, modelled as a list), incrementing
`updates_count` always, `last_7_days` when the floored day difference is
at most 7, and `last_30_days` when it is at most 30.  Timestamps are
milliseconds; `Math.floor` of the possibly-negative quotient is `Int.fdiv`. -/

/-- An update as selected by the frequency query: the author's profile
name (null when the join found none) and the `created_at` timestamp in
milliseconds. -/
structure UpdateRow where
  profiles_name : Option String
  created_at : Int
  deriving Repr, DecidableEq

/-- The grouping key: `update.profiles?.name || 'Unknown User'`. -/
def keyName (u : UpdateRow) : String :=
  u.profiles_name.getD "Unknown User"

/-- `Math.floor((now - updateDate) / (1000*60*60*24))` in whole days. -/
def daysDiff (now : Int) (u : UpdateRow) : Int :=
  (now - u.created_at).fdiv (1000 * 60 * 60 * 24)

/-- One user's accumulated counters. -/
structure UserFrequencyData where
  user_name : String
  updates_count : Nat
  last_7_days : Nat
  last_30_days : Nat
  deriving Repr, DecidableEq

/-- The body of the reduce for one update once its entry exists:
increment `updates_count`, and the windowed counters when the day
difference allows. -/
def bumpEntry (d : Int) (s : UserFrequencyData) : UserFrequencyData :=
  { s with
    updates_count := s.updates_count + 1
    last_7_days := if d ≤ 7 then s.last_7_days + 1 else s.last_7_days
    last_30_days := if d ≤ 30 then s.last_30_days + 1 else s.last_30_days }

/-- One step of the reduce: create the zeroed entry if the key is new,
then increment it. -/
def freqStep (now : Int) (acc : List UserFrequencyData) (u : UpdateRow) :
    List UserFrequencyData :=
  let name := keyName u
  let d := daysDiff now u
  if acc.any (fun s => s.user_name = name) then
    acc.map (fun s => if s.user_name = name then bumpEntry d s else s)
  else
    acc ++ [bumpEntry d ⟨name, 0, 0, 0⟩]

/-- `fetchUserFrequency`'s aggregation: the reduce over all updates,
starting from the empty object. -/
def userStats (now : Int) (updates : List UpdateRow) : List UserFrequencyData :=
  updates.foldl (freqStep now) []

/-! ## Theorems about `/create-pin-auth` -/

/-- C1: a POST to `/create-pin-auth` whose 6-digit pin matches a profiles
row with no linked auth identity creates an identity keyed by
`pin_<pin>@iris.internal`, sets that row's `user_id` to the new
identity's id, and returns success with the new id. -/
theorem createPinAuth_creates_and_links
    (db : List Profile) (pin : String) (p : Profile) (newId : String)
    (hlen : pin.length = 6) (hdig : pin.data.all Char.isDigit = true)
    (hfind : singleByPin db pin = some p) (hnull : p.user_id = none) :
    (createPinAuth db (some pin) (.ok newId)).response = .success newId ∧
    (createPinAuth db (some pin) (.ok newId)).created = [⟨newId, pinEmail pin⟩] ∧
    (∀ q ∈ (createPinAuth db (some pin) (.ok newId)).profiles,
      q.pin = pin → q.user_id = some newId) := by
  have hne : ¬ (pin = "" ∨ pin.length ≠ 6) := by
    rintro (h | h)
    · rw [h] at hlen; simp at hlen
    · exact h hlen
  refine ⟨?_, ?_, ?_⟩
  · simp only [createPinAuth, if_neg hne, hfind, hnull]
  · simp only [createPinAuth, if_neg hne, hfind, hnull]
  · intro q hq hqpin
    simp only [createPinAuth, if_neg hne, hfind, hnull] at hq
    rcases List.mem_map.mp hq with ⟨r, _, hrq⟩
    by_cases hrp : r.pin = pin
    · rw [if_pos hrp] at hrq
      rw [← hrq]
    · rw [if_neg hrp] at hrq
      rw [← hrq] at hqpin
      exact absurd hqpin hrp

/-- Witness for C1 at a concrete database. -/
theorem createPinAuth_creates_and_links_witness :
    ("123456" : String).length = 6 ∧
    "123456".data.all Char.isDigit = true ∧
    singleByPin [⟨"123456", none, some "Alice"⟩] "123456" =
      some ⟨"123456", none, some "Alice"⟩ ∧
    (createPinAuth [⟨"123456", none, some "Alice"⟩] (some "123456")
      (.ok "u1")).response = .success "u1" :=
  ⟨by decide, by decide, by decide,
    (createPinAuth_creates_and_links [⟨"123456", none, some "Alice"⟩]
      "123456" ⟨"123456", none, some "Alice"⟩ "u1"
      (by decide) (by decide) (by decide) rfl).1⟩

/-- C2 as written is false: the handler checks only that the pin is
truthy and has length 6, not that its characters are digits.  With pin
`"abcdef"` — six characters, none of them digits — the handler performs
the profile lookup and here returns the matched profile's identity with
status 200, not 400. -/
theorem createPinAuth_no_digit_check :
    ("abcdef".data.all Char.isDigit = false) ∧
    createPinAuth [⟨"abcdef", some "u7", none⟩] (some "abcdef") .err =
      ⟨.success "u7", [⟨"abcdef", some "u7", none⟩], []⟩ := by
  constructor
  · decide
  · decide

/-- C2 amended: a POST whose body lacks a pin or whose pin's length is
not 6 (no digit check is performed) gets a 400 response, with no profile
lookup, no identity created, and the profiles table unchanged. -/
theorem createPinAuth_badRequest
    (db : List Profile) (pinBody : Option String) (admin : CreateUserResult)
    (h : pinBody = none ∨ ∃ s, pinBody = some s ∧ s.length ≠ 6) :
    createPinAuth db pinBody admin = ⟨.badRequest, db, []⟩ := by
  rcases h with h | ⟨s, hs, hlen⟩
  · rw [h]; rfl
  · rw [hs]
    simp only [createPinAuth, if_pos (Or.inr hlen)]

/-- Witness for the amended C2 at a five-character pin. -/
theorem createPinAuth_badRequest_witness :
    (∃ s, (some "12345" : Option String) = some s ∧ s.length ≠ 6) ∧
    createPinAuth [] (some "12345") .err = ⟨.badRequest, [], []⟩ :=
  ⟨⟨"12345", rfl, by decide⟩,
    createPinAuth_badRequest [] (some "12345") .err
      (Or.inr ⟨"12345", rfl, by decide⟩)⟩

/-- C3: a POST whose pin passes format validation but matches no
profiles row gets a 401 response, creates no identity, and leaves the
profiles table unchanged. -/
theorem createPinAuth_unknown_pin
    (db : List Profile) (pin : String) (admin : CreateUserResult)
    (hlen : pin.length = 6)
    (hnone : db.filter (fun p => p.pin = pin) = []) :
    createPinAuth db (some pin) admin = ⟨.unauthorized, db, []⟩ := by
  have hne : ¬ (pin = "" ∨ pin.length ≠ 6) := by
    rintro (h | h)
    · rw [h] at hlen; simp at hlen
    · exact h hlen
  simp only [createPinAuth, if_neg hne, singleByPin, hnone]

/-- Witness for C3 on a database without the pin. -/
theorem createPinAuth_unknown_pin_witness :
    ("999999" : String).length = 6 ∧
    ([⟨"123456", none, none⟩] : List Profile).filter
      (fun p => p.pin = "999999") = [] ∧
    createPinAuth [⟨"123456", none, none⟩] (some "999999") .err =
      ⟨.unauthorized, [⟨"123456", none, none⟩], []⟩ :=
  ⟨by decide, by decide,
    createPinAuth_unknown_pin [⟨"123456", none, none⟩] "999999" .err
      (by decide) (by decide)⟩

/-- C4: a POST whose pin matches a profiles row that already has a
`user_id` returns success with that existing id, creates no identity,
and modifies no profiles row. -/
theorem createPinAuth_existing_identity
    (db : List Profile) (pin : String) (p : Profile) (uid : String)
    (admin : CreateUserResult)
    (hlen : pin.length = 6) (hfind : singleByPin db pin = some p)
    (huid : p.user_id = some uid) :
    createPinAuth db (some pin) admin = ⟨.success uid, db, []⟩ := by
  have hne : ¬ (pin = "" ∨ pin.length ≠ 6) := by
    rintro (h | h)
    · rw [h] at hlen; simp at hlen
    · exact h hlen
  simp only [createPinAuth, if_neg hne, hfind, huid]

/-- Witness for C4 on a row already linked to `u9`. -/
theorem createPinAuth_existing_identity_witness :
    singleByPin [⟨"123456", some "u9", none⟩] "123456" =
      some ⟨"123456", some "u9", none⟩ ∧
    createPinAuth [⟨"123456", some "u9", none⟩] (some "123456") .err =
      ⟨.success "u9", [⟨"123456", some "u9", none⟩], []⟩ :=
  ⟨by decide,
    createPinAuth_existing_identity [⟨"123456", some "u9", none⟩] "123456"
      ⟨"123456", some "u9", none⟩ "u9" .err (by decide) (by decide) rfl⟩

/-! ## Theorems about the client `login` flow -/

/-- C5: when the matching profiles row has no `user_id`, `login` invokes
the `create_auth_user_for_pin` RPC, attempts sign-in with the synthetic
email only after the RPC succeeded, and returns true exactly when both
the RPC and the sign-in succeed; when the row already has a `user_id`,
it signs in directly without invoking the RPC. -/
theorem login_identity_bootstrap
    (db : List Profile) (pin : String) (p : Profile) (o : LoginOracle)
    (hfind : singleByPin db pin = some p) :
    (p.user_id = none →
      (login db pin o).rpcCalled = true ∧
      ((login db pin o).success = true ↔
        o.rpcOk = true ∧ o.signInOk (pinEmail pin) pin = true) ∧
      (o.rpcOk = false → (login db pin o).signInAttempts = []) ∧
      (o.rpcOk = true →
        (login db pin o).signInAttempts = [(pinEmail pin, pin)])) ∧
    (∀ uid, p.user_id = some uid →
      (login db pin o).rpcCalled = false ∧
      (login db pin o).success = o.signInOk (pinEmail pin) pin ∧
      (login db pin o).signInAttempts = [(pinEmail pin, pin)]) := by
  constructor
  · intro hnull
    simp only [login, hfind, hnull]
    cases hrpc : o.rpcOk with
    | false => simp [hrpc]
    | true => simp [hrpc]
  · intro uid huid
    simp [login, hfind, huid]

/-- Witness for C5: a profile without `user_id`, an RPC and sign-in that
both succeed. -/
theorem login_identity_bootstrap_witness :
    singleByPin [⟨"654321", none, none⟩] "654321" =
      some ⟨"654321", none, none⟩ ∧
    (login [⟨"654321", none, none⟩] "654321"
      ⟨true, fun _ _ => true⟩).rpcCalled = true :=
  ⟨by decide,
    ((login_identity_bootstrap [⟨"654321", none, none⟩] "654321"
      ⟨"654321", none, none⟩ ⟨true, fun _ _ => true⟩ (by decide)).1 rfl).1⟩

/-- C6: when the profiles lookup finds no (single) matching row, `login`
returns false without invoking the RPC and without attempting any
sign-in. -/
theorem login_no_profile
    (db : List Profile) (pin : String) (o : LoginOracle)
    (hnone : singleByPin db pin = none) :
    login db pin o = ⟨false, false, []⟩ := by
  simp only [login, hnone]

/-- Witness for C6 on an empty profiles table. -/
theorem login_no_profile_witness :
    singleByPin [] "111111" = none ∧
    login [] "111111" ⟨true, fun _ _ => true⟩ = ⟨false, false, []⟩ :=
  ⟨rfl, login_no_profile [] "111111" ⟨true, fun _ _ => true⟩ rfl⟩

/-! ## Theorems about project creation and listing -/

/-- C7: with a non-empty name and a non-empty account id, `handleSubmit`
appends exactly one row carrying the submitted fields to the `projects`
table and a subsequent `fetchProjects` contains it; with an empty name or
account id it inserts nothing. -/
theorem createProject_persists {α : Type} (parse : String → α)
    (db : List (ProjectRow α)) (form : ProjectForm) :
    (form.name ≠ "" → form.account_id ≠ "" →
      handleSubmit parse db form = (db ++ [projectData parse form], true) ∧
      (projectData parse form).name = form.name ∧
      (projectData parse form).account_id = form.account_id ∧
      (projectData parse form).status = form.status ∧
      (projectData parse form).value =
        (if form.value = "" then none else some (parse form.value)) ∧
      (projectData parse form).start_date =
        (if form.start_date = "" then none else some form.start_date) ∧
      (projectData parse form).end_date =
        (if form.end_date = "" then none else some form.end_date) ∧
      (projectData parse form).description =
        (if form.description = "" then none else some form.description) ∧
      projectData parse form ∈ fetchProjects (handleSubmit parse db form).1) ∧
    ((form.name = "" ∨ form.account_id = "") →
      handleSubmit parse db form = (db, false)) := by
  constructor
  · intro hn ha
    have hcond : ¬ (form.name = "" ∨ form.account_id = "") := by
      rintro (h | h)
      · exact hn h
      · exact ha h
    refine ⟨by simp only [handleSubmit, if_neg hcond], rfl, rfl, rfl, rfl,
      rfl, rfl, rfl, ?_⟩
    simp only [handleSubmit, if_neg hcond, fetchProjects, List.mem_reverse]
    exact List.mem_append_right db (List.mem_cons_self _ _)
  · intro hcond
    simp only [handleSubmit, if_pos hcond]

/-- Witness for C7 with `parseFloat` instantiated to string length. -/
theorem createProject_persists_witness :
    handleSubmit String.length []
        ⟨"P1", "acc1", "Proposal", "1000", "", "", ""⟩ =
      ([⟨"P1", "acc1", "Proposal", some 4, none, none, none⟩], true) ∧
    (⟨"P1", "acc1", "Proposal", some 4, none, none, none⟩ : ProjectRow Nat) ∈
      fetchProjects [⟨"P1", "acc1", "Proposal", some 4, none, none, none⟩] := by
  have h := (createProject_persists String.length []
    ⟨"P1", "acc1", "Proposal", "1000", "", "", ""⟩).1
    (by decide) (by decide)
  refine ⟨h.1, ?_⟩
  have hmem := h.2.2.2.2.2.2.2.2
  rw [h.1] at hmem
  simpa using hmem

/-! ## Theorems about the client-overview aggregation -/

/-- Running `overviewStep` over a list from any starting state appends
the per-account rows and adds the per-account sums to the running
totals. -/
theorem foldl_overviewStep (accounts : List CAccount) (st : ClientStats) :
    accounts.foldl overviewStep st =
      ⟨st.clients ++ accounts.map clientDataOf,
       st.completedValue +
         (accounts.map (fun a => (clientDataOf a).completed_value)).sum,
       st.pipelineValue +
         (accounts.map (fun a => (clientDataOf a).pipeline_value)).sum⟩ := by
  induction accounts generalizing st with
  | nil => simp
  | cons a rest ih =>
    simp only [List.foldl_cons, ih, overviewStep, List.map_cons, List.sum_cons]
    simp [List.append_assoc, add_assoc]

/-- C8: the client overview emits one row per account whose
`completed_value` sums the values of its `'Closed Won'` projects, whose
`pipeline_value` sums the values of its projects that are neither
`'Closed Won'` nor `'Closed Lost'` (so `'Closed Lost'` values count in
neither), and whose `total_value` is their sum; the overall completed,
pipeline and total figures equal the sums of the per-account columns,
with the overall total the sum of the overall completed and pipeline
values. -/
theorem clientOverview_aggregation (accounts : List CAccount) :
    (fetchClientData accounts).clients = accounts.map clientDataOf ∧
    (∀ a : CAccount,
      (clientDataOf a).completed_value =
        sumValues (a.projects.filter (fun p => p.status = "Closed Won")) ∧
      (clientDataOf a).pipeline_value =
        sumValues (a.projects.filter
          (fun p => ¬ (p.status = "Closed Won" ∨ p.status = "Closed Lost"))) ∧
      (clientDataOf a).total_value =
        (clientDataOf a).completed_value + (clientDataOf a).pipeline_value) ∧
    (fetchClientData accounts).completedValue =
      ((fetchClientData accounts).clients.map ClientData.completed_value).sum ∧
    (fetchClientData accounts).pipelineValue =
      ((fetchClientData accounts).clients.map ClientData.pipeline_value).sum ∧
    overviewTotalValue accounts =
      (fetchClientData accounts).completedValue +
        (fetchClientData accounts).pipelineValue ∧
    overviewTotalValue accounts =
      ((fetchClientData accounts).clients.map ClientData.total_value).sum := by
  have hfold := foldl_overviewStep accounts ⟨[], 0, 0⟩
  have hclients : (fetchClientData accounts).clients = accounts.map clientDataOf := by
    rw [fetchClientData, hfold]; simp
  have hcomp : (fetchClientData accounts).completedValue =
      (accounts.map (fun a => (clientDataOf a).completed_value)).sum := by
    rw [fetchClientData, hfold]; simp
  have hpipe : (fetchClientData accounts).pipelineValue =
      (accounts.map (fun a => (clientDataOf a).pipeline_value)).sum := by
    rw [fetchClientData, hfold]; simp
  refine ⟨hclients, ?_, ?_, ?_, rfl, ?_⟩
  · intro a
    exact ⟨rfl, rfl, rfl⟩
  · rw [hcomp, hclients, List.map_map]
    rfl
  · rw [hpipe, hclients, List.map_map]
    rfl
  · rw [overviewTotalValue, hcomp, hpipe, hclients, List.map_map]
    have : ∀ l : List CAccount,
        (l.map (fun a => (clientDataOf a).completed_value)).sum +
          (l.map (fun a => (clientDataOf a).pipeline_value)).sum =
        (l.map (ClientData.total_value ∘ clientDataOf)).sum := by
      intro l
      induction l with
      | nil => simp
      | cons x xs ih =>
        simp only [List.map_cons, List.sum_cons, Function.comp_apply]
        rw [← ih]
        show _ = (clientDataOf x).completed_value +
          (clientDataOf x).pipeline_value + _
        ring
    exact this accounts

/-! ## Theorems about the dashboard win rate -/

/-- C9 as written is false: a non-empty project list with no closed
(won or lost) project — here a single `'Proposal'` project — makes the
divisor zero, and the resulting `winRate` is `0/0`, i.e. `NaN`
(modelled as `none`). -/
theorem winRate_zero_divisor :
    ([⟨"Proposal"⟩] : List DProject) ≠ [] ∧
    winRateDivisor [⟨"Proposal"⟩] = 0 ∧
    winRate [⟨"Proposal"⟩] = none := by
  refine ⟨by decide, by decide, ?_⟩
  simp [winRate, winRateDivisor, jsDiv]

/-- C9 amended: for every list of projects containing at least one
project whose status is `'Closed Won'` or `'Closed Lost'`, the win-rate
divisor is nonzero and `winRate` is a well-defined number. -/
theorem winRate_welldefined (projects : List DProject)
    (h : ∃ p ∈ projects,
      p.status = "Closed Won" ∨ p.status = "Closed Lost") :
    winRateDivisor projects ≠ 0 ∧ (winRate projects).isSome := by
  obtain ⟨p, hp, hstatus⟩ := h
  have hdiv : winRateDivisor projects ≠ 0 := by
    rw [winRateDivisor]
    rcases hstatus with hw | hl
    · have : p ∈ projects.filter (fun q => q.status = "Closed Won") :=
        List.mem_filter.mpr ⟨hp, by simp [hw]⟩
      have hlen := List.length_pos.mpr (List.ne_nil_of_mem this)
      omega
    · have : p ∈ projects.filter (fun q => q.status = "Closed Lost") :=
        List.mem_filter.mpr ⟨hp, by simp [hl]⟩
      have hlen := List.length_pos.mpr (List.ne_nil_of_mem this)
      omega
  refine ⟨hdiv, ?_⟩
  have hne : projects.length > 0 :=
    List.length_pos.mpr (List.ne_nil_of_mem hp)
  have hcast : (winRateDivisor projects : ℚ) ≠ 0 := by
    exact_mod_cast hdiv
  rw [winRate, if_pos hne, jsDiv, if_neg hcast]
  rfl

/-- Witness for the amended C9: one closed-won project. -/
theorem winRate_welldefined_witness :
    (∃ p ∈ ([⟨"Closed Won"⟩] : List DProject),
      p.status = "Closed Won" ∨ p.status = "Closed Lost") ∧
    winRateDivisor [⟨"Closed Won"⟩] ≠ 0 ∧
    (winRate [⟨"Closed Won"⟩]).isSome :=
  ⟨⟨⟨"Closed Won"⟩, by decide, by decide⟩,
    winRate_welldefined [⟨"Closed Won"⟩]
      ⟨⟨"Closed Won"⟩, by decide, by decide⟩⟩

/-! ## Theorems about the per-user update frequency -/

/-- `bumpEntry` does not change the grouping key. -/
theorem bumpEntry_user_name (d : Int) (s : UserFrequencyData) :
    (bumpEntry d s).user_name = s.user_name := rfl

/-- `bumpEntry` preserves the ordering of the counters and adds one to
the total count. -/
theorem bumpEntry_counters (d : Int) (s : UserFrequencyData)
    (h7 : s.last_7_days ≤ s.last_30_days)
    (h30 : s.last_30_days ≤ s.updates_count) :
    (bumpEntry d s).last_7_days ≤ (bumpEntry d s).last_30_days ∧
    (bumpEntry d s).last_30_days ≤ (bumpEntry d s).updates_count ∧
    (bumpEntry d s).updates_count = s.updates_count + 1 := by
  by_cases hd7 : d ≤ 7 <;> by_cases hd30 : d ≤ 30 <;>
    simp [bumpEntry, hd7, hd30] <;> omega

/-- The invariant the reduce maintains: every entry's counters are
ordered and its total count equals the number of already-processed
updates with its key, and every processed key has an entry. -/
theorem foldl_freqStep_invariant (now : Int) :
    ∀ (updates processed : List UpdateRow) (acc : List UserFrequencyData),
    (∀ s ∈ acc,
      s.last_7_days ≤ s.last_30_days ∧ s.last_30_days ≤ s.updates_count ∧
      s.updates_count =
        (processed.filter (fun u => keyName u = s.user_name)).length) →
    (∀ u ∈ processed, ∃ s ∈ acc, s.user_name = keyName u) →
    ∀ s ∈ updates.foldl (freqStep now) acc,
      s.last_7_days ≤ s.last_30_days ∧ s.last_30_days ≤ s.updates_count ∧
      s.updates_count =
        ((processed ++ updates).filter
          (fun u => keyName u = s.user_name)).length := by
  intro updates
  induction updates with
  | nil =>
    intro processed acc h1 _ s hs
    simpa using h1 s hs
  | cons u rest ih =>
    intro processed acc h1 h2 s hs
    rw [List.foldl_cons] at hs
    have happ : processed ++ u :: rest = (processed ++ [u]) ++ rest := by
      simp
    rw [happ]
    refine ih (processed ++ [u]) (freqStep now acc u) ?_ ?_ s hs
    · -- counters invariant after one step
      intro t ht
      rw [freqStep] at ht
      by_cases hany : acc.any (fun s => s.user_name = keyName u)
      · rw [if_pos hany] at ht
        obtain ⟨r, hr, hrt⟩ := List.mem_map.mp ht
        obtain ⟨m1, m2, mc⟩ := h1 r hr
        by_cases hname : r.user_name = keyName u
        · rw [if_pos hname] at hrt
          subst hrt
          obtain ⟨b1, b2, b3⟩ :=
            bumpEntry_counters (daysDiff now u) r m1 m2
          refine ⟨b1, b2, ?_⟩
          rw [b3, mc, bumpEntry_user_name, List.filter_append]
          have : [u].filter (fun v => keyName v = r.user_name) = [u] := by
            simp [hname]
          rw [this, List.length_append]
          simp
        · rw [if_neg hname] at hrt
          subst hrt
          refine ⟨m1, m2, ?_⟩
          rw [mc, List.filter_append]
          have : [u].filter (fun v => keyName v = r.user_name) = [] := by
            simp
            intro h
            exact hname h.symm
          rw [this, List.length_append]
          simp
      · rw [if_neg hany] at ht
        have hno : ∀ r ∈ acc, ¬ r.user_name = keyName u := by
          intro r hr
          intro hcontra
          exact hany (List.any_eq_true.mpr ⟨r, hr, by simp [hcontra]⟩)
        rcases List.mem_append.mp ht with hold | hnew
        · obtain ⟨m1, m2, mc⟩ := h1 t hold
          refine ⟨m1, m2, ?_⟩
          rw [mc, List.filter_append]
          have : [u].filter (fun v => keyName v = t.user_name) = [] := by
            simp
            intro h
            exact hno t hold h.symm
          rw [this, List.length_append]
          simp
        · have ht' : t = bumpEntry (daysDiff now u) ⟨keyName u, 0, 0, 0⟩ := by
            simpa using hnew
          subst ht'
          obtain ⟨b1, b2, b3⟩ := bumpEntry_counters (daysDiff now u)
            ⟨keyName u, 0, 0, 0⟩ (le_refl 0) (le_refl 0)
          refine ⟨b1, b2, ?_⟩
          rw [b3, bumpEntry_user_name]
          have hprev : processed.filter
              (fun v => keyName v = (⟨keyName u, 0, 0, 0⟩ :
                UserFrequencyData).user_name) = [] := by
            rw [List.filter_eq_nil_iff]
            intro v hv
            simp only [decide_eq_true_eq]
            intro hvk
            obtain ⟨r, hr, hru⟩ := h2 v hv
            exact hno r hr (hru.trans hvk)
          rw [List.filter_append, hprev]
          simp
    · -- every processed key still has an entry after one step
      intro v hv
      rw [freqStep]
      by_cases hany : acc.any (fun s => s.user_name = keyName u)
      · rw [if_pos hany]
        rcases List.mem_append.mp hv with hvp | hvu
        · obtain ⟨r, hr, hru⟩ := h2 v hvp
          refine ⟨if r.user_name = keyName u then
            bumpEntry (daysDiff now u) r else r, ?_, ?_⟩
          · exact List.mem_map.mpr ⟨r, hr, rfl⟩
          · by_cases hname : r.user_name = keyName u
            · rw [if_pos hname, bumpEntry_user_name]
              exact hru
            · rw [if_neg hname]
              exact hru
        · have hvu' : v = u := by simpa using hvu
          subst hvu'
          obtain ⟨r, hr, hru⟩ := List.any_eq_true.mp hany
          have hru' : r.user_name = keyName v := by simpa using hru
          refine ⟨bumpEntry (daysDiff now v) r, ?_, ?_⟩
          · refine List.mem_map.mpr ⟨r, hr, ?_⟩
            rw [if_pos hru']
          · rw [bumpEntry_user_name]
            exact hru'
      · rw [if_neg hany]
        rcases List.mem_append.mp hv with hvp | hvu
        · obtain ⟨r, hr, hru⟩ := h2 v hvp
          exact ⟨r, List.mem_append_left _ hr, hru⟩
        · have hvu' : v = u := by simpa using hvu
          subst hvu'
          refine ⟨bumpEntry (daysDiff now v) ⟨keyName v, 0, 0, 0⟩,
            List.mem_append_right _ (List.mem_cons_self _ _), ?_⟩
          rw [bumpEntry_user_name]

/-- C10: every entry of the per-user frequency aggregation satisfies
`last_7_days ≤ last_30_days ≤ updates_count`, and `updates_count` is the
number of input updates with that entry's key. -/
theorem userFrequency_counters (now : Int) (updates : List UpdateRow)
    (s : UserFrequencyData) (hs : s ∈ userStats now updates) :
    s.last_7_days ≤ s.last_30_days ∧
    s.last_30_days ≤ s.updates_count ∧
    s.updates_count =
      (updates.filter (fun u => keyName u = s.user_name)).length := by
  have h := foldl_freqStep_invariant now updates [] []
    (by intro t ht; simp at ht) (by intro v hv; simp at hv) s hs
  simpa using h

/-- Witness for C10 with one update authored by `A` today. -/
theorem userFrequency_counters_witness :
    (⟨"A", 1, 1, 1⟩ : UserFrequencyData) ∈ userStats 0 [⟨some "A", 0⟩] ∧
    (1 : Nat) ≤ 1 ∧ (1 : Nat) ≤ 1 ∧
    (1 : Nat) = (([⟨some "A", 0⟩] : List UpdateRow).filter
      (fun u => keyName u = "A")).length :=
  ⟨by decide, (userFrequency_counters 0 [⟨some "A", 0⟩] ⟨"A", 1, 1, 1⟩
    (by decide)).1, (userFrequency_counters 0 [⟨some "A", 0⟩] ⟨"A", 1, 1, 1⟩
    (by decide)).2.1, (userFrequency_counters 0 [⟨some "A", 0⟩] ⟨"A", 1, 1, 1⟩
    (by decide)).2.2⟩

end Iris
